import Mathlib

/-!
Verification of the WMDP translation/evaluation pipeline
(`wmdp_evaluation.ipynb`): a shallow embedding of the dataset loader,
the two LLM batch stages, the progress-bar callback, the CSV report
writer with its JSON-in-cell encoding and `eval`-based comparison
diagnostics, and the score histogram, together with theorems settling
the specification's claims about them.

Strings are modelled at the `List Char` level (Lean's `String` is a
structure over `List Char`), and the Python library functions the
notebook calls (`json.dumps`, `json.loads`, `eval` on list literals,
`csv` Excel-dialect writing/reading) are embedded as executable Lean
functions mirroring their documented behaviour on the value shapes the
notebook passes them (lists of strings / flat CSV rows).
-/

/-- The single-quote character, written via its code point. -/
def squote : Char := Char.ofNat 39

/-- Drop leading JSON/Python whitespace (space, tab, newline, carriage return). -/
def skipWs : List Char → List Char
  | [] => []
  | c :: rest =>
    if c = ' ' ∨ c = '\t' ∨ c = '\n' ∨ c = '\r' then skipWs rest else c :: rest

/-- Lower-case hexadecimal digit for `n < 16`, as Python's `'{0:04x}'.format`
produces in `json.dumps` control-character escapes. -/
def hexDigitChar (n : Nat) : Char :=
  Char.ofNat (if n < 10 then 48 + n else 87 + n)

/-- Numeric value of a hexadecimal digit character, or `none`. -/
def parseHexDigit (c : Char) : Option Nat :=
  if 48 ≤ c.toNat ∧ c.toNat ≤ 57 then some (c.toNat - 48)
  else if 97 ≤ c.toNat ∧ c.toNat ≤ 102 then some (c.toNat - 87)
  else if 65 ≤ c.toNat ∧ c.toNat ≤ 70 then some (c.toNat - 55)
  else none

/-- Escape of one character inside a JSON string, as Python's
`json.dumps(..., ensure_ascii=False)` performs it: `"` and `\` get a
backslash, the control characters with short escapes use them, the
remaining control characters become `\u00XX`, and everything else
(including non-ASCII) is kept verbatim. -/
def escapeJsonChar (c : Char) : List Char :=
  if c = '"' then ['\\', '"']
  else if c = '\\' then ['\\', '\\']
  else if c = '\n' then ['\\', 'n']
  else if c = '\r' then ['\\', 'r']
  else if c = '\t' then ['\\', 't']
  else if c.toNat = 8 then ['\\', 'b']
  else if c.toNat = 12 then ['\\', 'f']
  else if c.toNat < 32 then
    ['\\', 'u', '0', '0', hexDigitChar (c.toNat / 16), hexDigitChar (c.toNat % 16)]
  else [c]

/-- Escape a whole string body for JSON output. -/
def escapeJson : List Char → List Char
  | [] => []
  | c :: cs => escapeJsonChar c ++ escapeJson cs

/-- One JSON string in double quotes. -/
def encodeJsonString (s : List Char) : List Char :=
  '"' :: escapeJson s ++ ['"']

/-- Tail of a JSON array rendering: `json.dumps` separates elements with
`", "` and closes with `]`. -/
def jsonTail : List (List Char) → List Char
  | [] => [']']
  | x :: xs => ',' :: ' ' :: encodeJsonString x ++ jsonTail xs

/-- `json.dumps(l, ensure_ascii=False)` for a list of strings, at the
character-list level. -/
def jsonDumpsL : List (List Char) → List Char
  | [] => ['[', ']']
  | x :: xs => '[' :: encodeJsonString x ++ jsonTail xs

/-- `json.dumps(l, ensure_ascii=False)` for a list of strings. -/
def jsonDumpsStr (l : List String) : String :=
  String.mk (jsonDumpsL (l.map String.data))

/-- Meaning of a single-character backslash escape shared by JSON and
Python string literals. -/
def unescapeChar (e : Char) : Option Char :=
  if e = '"' then some '"'
  else if e = '\\' then some '\\'
  else if e = '/' then some '/'
  else if e = 'b' then some (Char.ofNat 8)
  else if e = 'f' then some (Char.ofNat 12)
  else if e = 'n' then some '\n'
  else if e = 'r' then some '\r'
  else if e = 't' then some '\t'
  else none

/-- Body of a JSON string after the opening `"`: consume up to the
closing quote, resolving backslash escapes (including `\uXXXX`) and
rejecting unescaped control characters, as `json.loads` does in its
default strict mode.  Returns the decoded body and the input remaining
after the closing quote. -/
def jsonParseStringBody : List Char → Option (List Char × List Char)
  | [] => none
  | c :: rest =>
    if c = '"' then some ([], rest)
    else if c = '\\' then
      match rest with
      | [] => none
      | e :: rest2 =>
        if e = 'u' then
          match rest2 with
          | h1 :: h2 :: h3 :: h4 :: rest3 =>
            match parseHexDigit h1, parseHexDigit h2, parseHexDigit h3, parseHexDigit h4 with
            | some a, some b, some c2, some d =>
              (jsonParseStringBody rest3).map
                (fun p => (Char.ofNat (((a * 16 + b) * 16 + c2) * 16 + d) :: p.1, p.2))
            | _, _, _, _ => none
          | _ => none
        else
          match unescapeChar e with
          | some u => (jsonParseStringBody rest2).map (fun p => (u :: p.1, p.2))
          | none => none
    else if c.toNat < 32 then none
    else (jsonParseStringBody rest).map (fun p => (c :: p.1, p.2))

/-- Elements of a JSON array of strings, positioned at the start of the
first element; `fuel` bounds the number of elements.  Returns the decoded
strings and the input remaining after the closing `]`. -/
def jsonParseElems : Nat → List Char → Option (List (List Char) × List Char)
  | 0, _ => none
  | _, [] => none
  | fuel + 1, c :: rest =>
    if c = '"' then
      match jsonParseStringBody rest with
      | none => none
      | some (s, r) =>
        match skipWs r with
        | ',' :: r2 => (jsonParseElems fuel (skipWs r2)).map (fun p => (s :: p.1, p.2))
        | ']' :: r2 => some ([s], r2)
        | _ => none
    else none

/-- `json.loads` restricted to the value shape the notebook round-trips:
a JSON array of strings.  Any other document (including Python-style
single-quoted lists, which are not valid JSON) yields `none`, which
models a raised `JSONDecodeError`. -/
def jsonLoads (s : String) : Option (List String) :=
  match skipWs s.data with
  | '[' :: rest =>
    match skipWs rest with
    | [] => none
    | c :: r2 =>
      if c = ']' then (if skipWs r2 = [] then some [] else none)
      else
        match jsonParseElems (c :: r2).length (c :: r2) with
        | some (l, r) =>
          if skipWs r = [] then some (l.map (fun cs => String.mk cs)) else none
        | none => none
  | _ => none

/-- Whether the Excel dialect's minimal quoting must quote a field: it
contains the delimiter, the quote character, or a line-terminator
character. -/
def needsQuote (s : List Char) : Bool :=
  s.any (fun c => c = ',' || c = '"' || c = '\r' || c = '\n')

/-- Quote-escaping inside a quoted CSV field: each `"` is doubled. -/
def escapeCsv : List Char → List Char
  | [] => []
  | c :: cs => (if c = '"' then ['"', '"'] else [c]) ++ escapeCsv cs

/-- One CSV field under the Excel dialect's minimal quoting. -/
def csvEncodeField (s : List Char) : List Char :=
  if needsQuote s then '"' :: escapeCsv s ++ ['"'] else s

/-- Fields of one CSV record joined with the `,` delimiter. -/
def csvEncodeFields : List (List Char) → List Char
  | [] => []
  | [f] => csvEncodeField f
  | f :: fs => csvEncodeField f ++ ',' :: csvEncodeFields fs

/-- One CSV record under the Excel dialect: fields joined with `,`,
terminated with `\r\n`; a record consisting of exactly one empty field
is written as `""` so it stays distinguishable from a blank line,
exactly as Python's `csv` writer does. -/
def csvEncodeRecord (fields : List (List Char)) : List Char :=
  (if fields = [[]] then ['"', '"'] else csvEncodeFields fields) ++ ['\r', '\n']

/-- Body of a quoted CSV field after the opening `"`: a doubled `""`
stands for one `"`, a single `"` closes the field.  Returns the decoded
field and the input remaining after the closing quote. -/
def csvParseQuoted : List Char → Option (List Char × List Char)
  | [] => none
  | c :: rest =>
    if c = '"' then
      match rest with
      | c2 :: rest2 =>
        if c2 = '"' then (csvParseQuoted rest2).map (fun p => ('"' :: p.1, p.2))
        else some ([], rest)
      | [] => some ([], [])
    else (csvParseQuoted rest).map (fun p => (c :: p.1, p.2))

/-- An unquoted CSV field: everything up to the next delimiter or
line-terminator character. -/
def csvParseUnquoted : List Char → List Char × List Char
  | [] => ([], [])
  | c :: rest =>
    if c = ',' ∨ c = '\r' ∨ c = '\n' then ([], c :: rest)
    else
      let p := csvParseUnquoted rest
      (c :: p.1, p.2)

/-- One CSV field: quoted if it starts with `"`, unquoted otherwise. -/
def csvParseField : List Char → Option (List Char × List Char)
  | '"' :: rest => csvParseQuoted rest
  | input => some (csvParseUnquoted input)

/-- One CSV record of the Excel dialect: fields separated by `,`,
terminated by `\r\n`; `fuel` bounds the number of fields.  Returns the
decoded fields and the input remaining after the terminator, so embedded
`\r\n` inside a quoted field does not end the record. -/
def csvParseRecordAux : Nat → List Char → Option (List (List Char) × List Char)
  | 0, _ => none
  | fuel + 1, input =>
    match csvParseField input with
    | none => none
    | some (f, rest) =>
      match rest with
      | ',' :: rest2 => (csvParseRecordAux fuel rest2).map (fun p => (f :: p.1, p.2))
      | '\r' :: '\n' :: rest2 => some ([f], rest2)
      | _ => none

/-- Read one CSV record from the head of the input, as a standard
Excel-dialect CSV reader does. -/
def csvReadRecord (input : List Char) : Option (List (List Char) × List Char) :=
  csvParseRecordAux (input.length + 1) input

/-- A value a structured-output choices field can hold when the report
writer sees it: the declared schema says list-of-strings, but the
writer's `isinstance(..., list)` guard allows for an already-serialized
string as well. -/
inductive CellValue where
  | ofList : List String → CellValue
  | ofStr : String → CellValue
deriving DecidableEq

/-- One record of `all_entries` as the dataset loader builds it: the
English question, the choices already serialized with
`json.dumps(..., ensure_ascii=False)`, and the answer index. -/
structure SourceEntry where
  en_question : String
  en_choices : String
  answer : Nat
deriving DecidableEq

/-- One record of the external dataset's test split. -/
structure DatasetEntry where
  question : String
  choices : List String
  answer : Nat
deriving DecidableEq

/-- The loader's per-entry dict construction:
`{"en_question": q, "en_choices": json.dumps(choices, ensure_ascii=False), "answer": a}`. -/
def loadEntry (e : DatasetEntry) : SourceEntry :=
  { en_question := e.question, en_choices := jsonDumpsStr e.choices, answer := e.answer }

/-- The `Translation` structured-output schema of the translation stage. -/
structure Translation where
  trad_zh_question : String
  trad_zh_choices : List String
  en_question : String
  en_choices : List String
deriving DecidableEq

/-- The `TestQuestion` structured-output schema of the evaluation stage;
the choices fields are `CellValue` because the report writer guards for
both shapes at run time. -/
structure TestQuestion where
  trad_zh_question : String
  trad_zh_choices : CellValue
  en_question : String
  en_choices : CellValue
  differences : String
  score : Int
deriving DecidableEq

/-- Modelled from the spec: the external batch-call facility
(`chain.batch`) — "a single logical request that dispatches one LLM
invocation per input record and returns all results, order-preserved" —
with the per-record model behaviour abstracted as a function. -/
def batchCall (model : α → β) (inputs : List α) : List β :=
  inputs.map model

/-- `trad_zh_translations = translation_chain.batch(all_entries, ...)`. -/
def translationStage (model : SourceEntry → Translation)
    (entries : List SourceEntry) : List Translation :=
  batchCall model entries

/-- `translation_evaluations = eval_chain.batch(trad_zh_translations, ...)`. -/
def evaluationStage (model : Translation → TestQuestion)
    (ts : List Translation) : List TestQuestion :=
  batchCall model ts

/-- Body of a single-quoted Python string literal, mirroring
`jsonParseStringBody` with the quote characters' roles swapped; `\'` is
additionally a valid escape.  (Unknown escapes, which Python keeps
verbatim with a warning, are rejected here; none can reach this parser
from the notebook's data.) -/
def pyParseSqBody : List Char → Option (List Char × List Char)
  | [] => none
  | c :: rest =>
    if c = squote then some ([], rest)
    else if c = '\\' then
      match rest with
      | [] => none
      | e :: rest2 =>
        if e = 'u' then
          match rest2 with
          | h1 :: h2 :: h3 :: h4 :: rest3 =>
            match parseHexDigit h1, parseHexDigit h2, parseHexDigit h3, parseHexDigit h4 with
            | some a, some b, some c2, some d =>
              (pyParseSqBody rest3).map
                (fun p => (Char.ofNat (((a * 16 + b) * 16 + c2) * 16 + d) :: p.1, p.2))
            | _, _, _, _ => none
          | _ => none
        else if e = squote then (pyParseSqBody rest2).map (fun p => (squote :: p.1, p.2))
        else
          match unescapeChar e with
          | some u => (pyParseSqBody rest2).map (fun p => (u :: p.1, p.2))
          | none => none
    else if c.toNat < 32 then none
    else (pyParseSqBody rest).map (fun p => (c :: p.1, p.2))

/-- Elements of a Python list-of-strings literal: each element is a
double- or single-quoted string literal. -/
def pyParseElems : Nat → List Char → Option (List (List Char) × List Char)
  | 0, _ => none
  | _, [] => none
  | fuel + 1, c :: rest =>
    if c = '"' ∨ c = squote then
      match (if c = '"' then jsonParseStringBody rest else pyParseSqBody rest) with
      | none => none
      | some (s, r) =>
        match skipWs r with
        | ',' :: r2 => (pyParseElems fuel (skipWs r2)).map (fun p => (s :: p.1, p.2))
        | ']' :: r2 => some ([s], r2)
        | _ => none
    else none

/-- Python's `eval` as the report writer applies it
(`repr(eval(out["en_choices"]))`), decided on the value shapes the
notebook's data paths produce: a list literal of single- or
double-quoted string literals.  On such a literal the result agrees with
`eval`; `none` covers everything else and is therefore only an
overapproximation of `eval` raising (`eval` succeeds on expressions
outside this grammar, such as numeric lists or arithmetic).  The
theorems below use the `some` side, where the model is exact, and engage
the `none` side only at inputs on which `eval` genuinely raises, such as
an undefined bare name. -/
def pyEvalStrList (s : String) : Option (List String) :=
  match skipWs s.data with
  | '[' :: rest =>
    match skipWs rest with
    | [] => none
    | c :: r2 =>
      if c = ']' then (if skipWs r2 = [] then some [] else none)
      else
        match pyParseElems (c :: r2).length (c :: r2) with
        | some (l, r) =>
          if skipWs r = [] then some (l.map (fun cs => String.mk cs)) else none
        | none => none
  | _ => none

/-- The writer's `fieldnames` list. -/
def fieldnames : List String :=
  ["en_question", "en_choices", "trad_zh_question", "trad_zh_choices",
   "answer", "score", "differences"]

/-- The list-guard of the report writer: a list-valued choices field is
re-encoded with `json.dumps(..., ensure_ascii=False)`; a string value is
left unchanged. -/
def dumpCell : CellValue → String
  | .ofList l => jsonDumpsStr l
  | .ofStr s => s

/-- One row of the output CSV, before cell-text rendering. -/
structure ReportRow where
  en_question : String
  en_choices : String
  trad_zh_question : String
  trad_zh_choices : String
  answer : Nat
  score : Int
  differences : String
deriving DecidableEq

/-- `out = eval_entry.copy(); out["answer"] = orig_entry["answer"]`
followed by the two list-guards. -/
def makeRow (ev : TestQuestion) (orig : SourceEntry) : ReportRow :=
  { en_question := ev.en_question
    en_choices := dumpCell ev.en_choices
    trad_zh_question := ev.trad_zh_question
    trad_zh_choices := dumpCell ev.trad_zh_choices
    answer := orig.answer
    score := ev.score
    differences := ev.differences }

/-- The CSV cell texts of one row in the writer's fixed column order
(`DictWriter` with `fieldnames`); integer fields are rendered in decimal
as Python's `csv` renders non-string values with `str`. -/
def rowFields (r : ReportRow) : List String :=
  [r.en_question, r.en_choices, r.trad_zh_question, r.trad_zh_choices,
   toString r.answer, toString r.score, r.differences]

/-- The question diagnostic: printed iff the evaluation stage's
`en_question` differs from the source entry's. -/
def questionDiag (ev : TestQuestion) (orig : SourceEntry) : List String :=
  if ev.en_question ≠ orig.en_question then
    ["Different question:", "New: " ++ ev.en_question, "Old: " ++ orig.en_question, ""]
  else []

/-- The choices diagnostic: both choices strings are re-parsed with
`eval` and the parsed values compared (the notebook compares `repr`
texts; `repr` of a list of strings is injective, so this coincides with
list equality).  A parse failure is an uncaught exception, modelled as
`Except.error`. -/
def choicesDiag (outChoices origChoices : String) : Except Unit (List String) :=
  match pyEvalStrList outChoices, pyEvalStrList origChoices with
  | some a, some b =>
    .ok (if a ≠ b then
      ["Different choices:", "New: " ++ outChoices, "Old: " ++ origChoices, ""]
    else [])
  | _, _ => .error ()

/-- One iteration of the writer loop: build the output row, emit the
diagnostics, write the row.  Returns (diagnostic lines, row). -/
def writeRecord (ev : TestQuestion) (orig : SourceEntry) :
    Except Unit (List String × ReportRow) :=
  match choicesDiag (makeRow ev orig).en_choices orig.en_choices with
  | .error e => .error e
  | .ok cd => .ok (questionDiag ev orig ++ cd, makeRow ev orig)

/-- The writer loop over `zip(translation_evaluations, all_entries)`:
pairs are processed positionally in order; the first uncaught exception
aborts the run. -/
def writeReportAux :
    List (TestQuestion × SourceEntry) → Except Unit (List (List String) × List ReportRow)
  | [] => .ok ([], [])
  | (ev, orig) :: rest =>
    match writeRecord ev orig with
    | .error e => .error e
    | .ok (d, r) => (writeReportAux rest).map (fun p => (d :: p.1, r :: p.2))

/-- The whole report-writing cell, diagnostics and rows. -/
def writeReport (evals : List TestQuestion) (origs : List SourceEntry) :
    Except Unit (List (List String) × List ReportRow) :=
  writeReportAux (evals.zip origs)

/-- The diagnostic lines of one successfully processed pair. -/
def diagOf (ev : TestQuestion) (orig : SourceEntry) : List String :=
  questionDiag ev orig ++
    (match choicesDiag (makeRow ev orig).en_choices orig.en_choices with
     | .ok cd => cd
     | .error _ => [])

/-- Whether an `Except` computation succeeded. -/
def exceptOk : Except ε α → Bool
  | .ok _ => true
  | .error _ => false

/-- The header line `writer.writeheader()` emits. -/
def csvHeaderLine : String :=
  String.mk (csvEncodeRecord (fieldnames.map String.data))

/-- `csvReadRecord` delivering its fields as strings. -/
def csvReadRecordStr (input : List Char) : Option (List String × List Char) :=
  (csvReadRecord input).map (fun p => (p.1.map String.mk, p.2))

/-- Modelled from the spec: the tqdm display resource — a counter, the
expected total, and whether the display has been released. -/
structure ProgressBar where
  n : Nat
  total : Nat
  closed : Bool
deriving DecidableEq

/-- `tqdm(total=total)`. -/
def tqdmInit (total : Nat) : ProgressBar :=
  { n := 0, total := total, closed := false }

/-- `progress_bar.update(1)`. -/
def tqdmUpdate (b : ProgressBar) : ProgressBar :=
  if b.closed then b else { b with n := b.n + 1 }

/-- Releasing the display (`__exit__`). -/
def tqdmClose (b : ProgressBar) : ProgressBar :=
  { b with closed := true }

/-- The `BatchCallback` handler state: the completion counter and the
display resource. -/
structure BatchCallback where
  count : Nat
  progress_bar : ProgressBar
deriving DecidableEq

/-- `BatchCallback.__init__(total)`. -/
def batchCallbackInit (total : Nat) : BatchCallback :=
  { count := 0, progress_bar := tqdmInit total }

/-- Modelled from the spec: one completed unit of work as the external
batch dispatcher delivers it to the callback — "any completion, not just
success, advances the counter".  `run_id` identifies the unit, `success`
records whether it succeeded. -/
structure LlmCompletion where
  run_id : Nat
  success : Bool
deriving DecidableEq

/-- `on_llm_end`: increments the counter and the display by one,
independently of the unit's identity (hence of completion order) and of
its success. -/
def onLlmEnd (s : BatchCallback) (_e : LlmCompletion) : BatchCallback :=
  { count := s.count + 1, progress_bar := tqdmUpdate s.progress_bar }

/-- Delivery of a batch's completion events to the callback. -/
def processCompletions (s : BatchCallback) (events : List LlmCompletion) : BatchCallback :=
  events.foldl onLlmEnd s

/-- The `with BatchCallback(total) as cb:` scope: construct and enter,
deliver the batch's events, and release the display on exit.  An early
(exceptional) exit is modelled by `earlyExit = some k`: only the first
`k` events were delivered when the scope unwound; `__exit__` still runs. -/
def runScoped (total : Nat) (events : List LlmCompletion) (earlyExit : Option Nat) :
    BatchCallback :=
  let delivered := match earlyExit with
    | none => events
    | some k => events.take k
  let s := processCompletions (batchCallbackInit total) delivered
  { s with progress_bar := tqdmClose s.progress_bar }

/-- `all_scores = [eval_entry["score"] for eval_entry in translation_evaluations]`. -/
def collectScores (evals : List TestQuestion) : List Int :=
  evals.map (fun e => e.score)

/-- `ax.hist(all_scores, bins=range(12))`: eleven integer-width bins
with edges 0,1,...,11; bin `i` counts scores in `[i, i+1)`, except that
the last bin is the closed interval `[10, 11]`. -/
def histCounts (scores : List Int) : List Nat :=
  (List.range 11).map (fun (i : Nat) =>
    scores.countP (fun s =>
      decide ((i : Int) ≤ s ∧ s < (i : Int) + 1) || decide (i = 10 ∧ s = 11)))

/-- The figure the summary cell builds: bin counts and labels. -/
structure HistFigure where
  counts : List Nat
  xlabel : String
  ylabel : String
  title : String
deriving DecidableEq

/-- The summary-plot cell. -/
def summaryPlot (evals : List TestQuestion) : HistFigure :=
  { counts := histCounts (collectScores evals)
    xlabel := "Scores"
    ylabel := "Count"
    title := "Histogram of Evaluation Scores" }

/-- The text `['a']`: a Python list literal that is not valid JSON. -/
def sqListStr : String := String.mk ['[', squote, 'a', squote, ']']

/-- Sample evaluation record used as concrete test input: its English
text agrees with `wOrig`. -/
def wEvalA : TestQuestion :=
  { trad_zh_question := "q", trad_zh_choices := .ofList ["x"],
    en_question := "eq", en_choices := .ofList ["a"],
    differences := "", score := 7 }

/-- Sample source entry used as concrete test input. -/
def wOrig : SourceEntry :=
  { en_question := "eq", en_choices := jsonDumpsStr ["a"], answer := 2 }

/-- Sample evaluation record whose choices field already holds a string. -/
def wEvalStr : TestQuestion :=
  { trad_zh_question := "q", trad_zh_choices := .ofStr "plain-zh",
    en_question := "eq", en_choices := .ofStr "plain",
    differences := "", score := 7 }

/-- Sample evaluation record whose choices strings are the non-JSON
Python literal `['a']`. -/
def wEvalSq : TestQuestion :=
  { trad_zh_question := "q", trad_zh_choices := .ofStr sqListStr,
    en_question := "eq", en_choices := .ofStr sqListStr,
    differences := "", score := 7 }

/-- Sample source entry whose choices string is the non-JSON Python
literal `['a']`. -/
def wOrigSq : SourceEntry :=
  { en_question := "eq", en_choices := sqListStr, answer := 2 }

/-- Sample evaluation record whose choices string is not a valid
expression at all. -/
def wEvalBad : TestQuestion :=
  { trad_zh_question := "q", trad_zh_choices := .ofStr "oops",
    en_question := "eq", en_choices := .ofStr "oops",
    differences := "", score := 7 }

/-- Sample completion events: one successful and one failed unit. -/
def wEvents : List LlmCompletion :=
  [{ run_id := 0, success := true }, { run_id := 1, success := false }]
theorem map_mk_map_data (ys : List String) :
    (ys.map String.data).map String.mk = ys := by
  induction ys with
  | nil => rfl
  | cons y t ih => simp [ih]

theorem parseHexDigit_hexDigitChar : ∀ n, n < 16 → parseHexDigit (hexDigitChar n) = some n := by
  decide

theorem jsonParseStringBody_escape (s : List Char) (rest : List Char) :
    jsonParseStringBody (escapeJson s ++ '"' :: rest) = some (s, rest) := by
  induction s with
  | nil => rw [escapeJson, List.nil_append, jsonParseStringBody.eq_def]; simp
  | cons c cs ih =>
    rw [escapeJson, List.append_assoc]
    by_cases h1 : c = '"'
    · subst h1
      rw [show escapeJsonChar '"' = ['\\', '"'] from rfl, List.cons_append,
        List.cons_append, List.nil_append, jsonParseStringBody.eq_def]
      simp [unescapeChar, ih]
    by_cases h2 : c = '\\'
    · subst h2
      rw [show escapeJsonChar '\\' = ['\\', '\\'] from rfl, List.cons_append,
        List.cons_append, List.nil_append, jsonParseStringBody.eq_def]
      simp [unescapeChar, ih]
    by_cases h3 : c = '\n'
    · subst h3
      rw [show escapeJsonChar '\n' = ['\\', 'n'] from rfl, List.cons_append,
        List.cons_append, List.nil_append, jsonParseStringBody.eq_def]
      simp [unescapeChar, ih]
    by_cases h4 : c = '\r'
    · subst h4
      rw [show escapeJsonChar '\r' = ['\\', 'r'] from rfl, List.cons_append,
        List.cons_append, List.nil_append, jsonParseStringBody.eq_def]
      simp [unescapeChar, ih]
    by_cases h5 : c = '\t'
    · subst h5
      rw [show escapeJsonChar '\t' = ['\\', 't'] from rfl, List.cons_append,
        List.cons_append, List.nil_append, jsonParseStringBody.eq_def]
      simp [unescapeChar, ih]
    by_cases h6 : c.toNat = 8
    · have hc : Char.ofNat 8 = c := by rw [← h6, Char.ofNat_toNat]
      rw [show escapeJsonChar c = ['\\', 'b'] from by
          simp [escapeJsonChar, h1, h2, h3, h4, h5, h6]]
      rw [List.cons_append, List.cons_append, List.nil_append, jsonParseStringBody.eq_def]
      simp [unescapeChar, ih]
      exact hc
    by_cases h7 : c.toNat = 12
    · have hc : Char.ofNat 12 = c := by rw [← h7, Char.ofNat_toNat]
      rw [show escapeJsonChar c = ['\\', 'f'] from by
          simp [escapeJsonChar, h1, h2, h3, h4, h5, h6, h7]]
      rw [List.cons_append, List.cons_append, List.nil_append, jsonParseStringBody.eq_def]
      simp [unescapeChar, ih]
      exact hc
    by_cases h8 : c.toNat < 32
    · have h16a : c.toNat / 16 < 16 := by omega
      have h16b : c.toNat % 16 < 16 := by omega
      have e1 := parseHexDigit_hexDigitChar _ h16a
      have e2 := parseHexDigit_hexDigitChar _ h16b
      rw [show escapeJsonChar c =
          ['\\', 'u', '0', '0', hexDigitChar (c.toNat / 16), hexDigitChar (c.toNat % 16)] from by
          simp [escapeJsonChar, h1, h2, h3, h4, h5, h6, h7, h8]]
      simp only [List.cons_append, List.nil_append]
      rw [jsonParseStringBody.eq_def]
      simp [show parseHexDigit '0' = some 0 from rfl, e1, e2, ih]
      rw [show c.toNat / 16 * 16 + c.toNat % 16 = c.toNat from by omega, Char.ofNat_toNat]
    · rw [show escapeJsonChar c = [c] from by
          simp [escapeJsonChar, h1, h2, h3, h4, h5, h6, h7, h8]]
      rw [List.cons_append, List.nil_append, jsonParseStringBody.eq_def]
      simp [h1, h2, h8, ih]

theorem jsonTail_length (xs : List (List Char)) : xs.length < (jsonTail xs).length := by
  induction xs with
  | nil => simp [jsonTail]
  | cons y ys ih => simp [jsonTail, encodeJsonString]; omega

theorem jsonParseElems_dumps (xs : List (List Char)) :
    ∀ (x : List Char) (fuel : Nat) (rest : List Char), xs.length < fuel →
    jsonParseElems fuel (encodeJsonString x ++ (jsonTail xs ++ rest)) = some (x :: xs, rest) := by
  induction xs with
  | nil =>
    intro x fuel rest hf
    cases fuel with
    | zero => omega
    | succ f =>
      rw [encodeJsonString, jsonTail]
      simp only [List.cons_append, List.append_assoc, List.singleton_append]
      rw [jsonParseElems.eq_def]
      simp [jsonParseStringBody_escape, skipWs]
  | cons y ys ih =>
    intro x fuel rest hf
    cases fuel with
    | zero => omega
    | succ f =>
      have ih2 := ih y f rest (by simp at hf; omega)
      rw [encodeJsonString] at ih2
      simp only [List.cons_append, List.append_assoc, List.singleton_append, List.nil_append] at ih2
      rw [encodeJsonString, jsonTail]
      simp only [List.cons_append, List.append_assoc, List.singleton_append]
      rw [jsonParseElems.eq_def]
      simp [jsonParseStringBody_escape, skipWs, ih2]

theorem skipWs_quote (t : List Char) : skipWs ('"' :: t) = '"' :: t := by
  simp [skipWs]

theorem jsonLoads_dumpsL (l : List (List Char)) :
    jsonLoads (String.mk (jsonDumpsL l)) = some (l.map String.mk) := by
  cases l with
  | nil => rfl
  | cons x xs =>
    have hlen : xs.length < (encodeJsonString x ++ jsonTail xs).length := by
      have := jsonTail_length xs
      simp only [List.length_append]
      omega
    have helems := jsonParseElems_dumps xs x (encodeJsonString x ++ jsonTail xs).length [] hlen
    rw [List.append_nil] at helems
    rw [encodeJsonString] at helems
    simp only [List.cons_append, List.append_assoc, List.singleton_append,
      List.nil_append, List.length_cons, List.length_append] at helems
    rw [jsonLoads.eq_def]
    rw [show (String.mk (jsonDumpsL (x :: xs))).data =
      '[' :: ('"' :: (escapeJson x ++ '"' :: jsonTail xs)) from by
        show jsonDumpsL (x :: xs) = _
        rw [jsonDumpsL.eq_def]
        simp [encodeJsonString]]
    rw [show skipWs ('[' :: ('"' :: (escapeJson x ++ '"' :: jsonTail xs))) =
      '[' :: ('"' :: (escapeJson x ++ '"' :: jsonTail xs)) from by simp [skipWs]]
    simp [skipWs_quote, helems, skipWs]

/-- Claim C7: for every list of strings, including strings containing embedded
quotes, control characters, or non-ASCII Unicode characters, parsing the JSON
encoding of the list yields the original list:
`jsonLoads (jsonDumpsStr l) = some l`. -/
theorem json_encode_parse_roundtrip (l : List String) :
    jsonLoads (jsonDumpsStr l) = some l := by
  have h := jsonLoads_dumpsL (l.map String.data)
  rw [map_mk_map_data] at h
  exact h

theorem csvParseQuoted_escape (s : List Char) :
    ∀ rest : List Char, rest.head? ≠ some '"' →
    csvParseQuoted (escapeCsv s ++ '"' :: rest) = some (s, rest) := by
  induction s with
  | nil =>
    intro rest hr
    rw [escapeCsv, List.nil_append, csvParseQuoted.eq_def]
    cases rest with
    | nil => simp
    | cons c2 r2 =>
      have : ¬c2 = '"' := by simpa using hr
      simp [this]
  | cons c cs ih =>
    intro rest hr
    by_cases h1 : c = '"'
    · subst h1
      rw [escapeCsv]
      simp only [if_pos rfl, List.cons_append, List.nil_append]
      rw [csvParseQuoted.eq_def]
      simp [ih rest hr]
    · rw [escapeCsv]
      simp only [if_neg h1, List.cons_append, List.nil_append]
      rw [csvParseQuoted.eq_def]
      cases hcs : escapeCsv cs ++ '"' :: rest with
      | nil => simp at hcs
      | cons d ds =>
        rw [← hcs]
        simp [h1, ih rest hr]

theorem csvParseUnquoted_id (s : List Char) :
    ∀ rest : List Char, needsQuote s = false →
    (rest.head? = some ',' ∨ rest.head? = some '\r') →
    csvParseUnquoted (s ++ rest) = (s, rest) := by
  induction s with
  | nil =>
    intro rest _ hr
    cases rest with
    | nil => simp at hr
    | cons c r2 =>
      rcases hr with h | h <;>
      · simp only [List.head?_cons, Option.some.injEq] at h
        subst h
        simp [csvParseUnquoted]
  | cons c cs ih =>
    intro rest hq hr
    simp only [needsQuote, List.any_cons, Bool.or_eq_false_iff] at hq
    obtain ⟨hc, hcs⟩ := hq
    simp only [Bool.or_eq_false_iff, decide_eq_false_iff_not] at hc
    rw [List.cons_append, csvParseUnquoted.eq_def]
    have : ¬(c = ',' ∨ c = '\r' ∨ c = '\n') := by tauto
    simp only [if_neg this]
    rw [ih rest (by simp [needsQuote, hcs]) hr]

theorem csvParseField_encode (s : List Char) (rest : List Char)
    (hr : rest.head? = some ',' ∨ rest.head? = some '\r') :
    csvParseField (csvEncodeField s ++ rest) = some (s, rest) := by
  rw [csvEncodeField]
  by_cases hq : needsQuote s
  · simp only [if_pos hq, List.cons_append, List.append_assoc, List.singleton_append,
      List.nil_append]
    rw [csvParseField.eq_def]
    split
    next r heq =>
      rcases (by simpa using heq : escapeCsv s ++ '"' :: rest = r) with rfl
      exact csvParseQuoted_escape s rest (by rcases hr with h | h <;> simp [h])
    next h =>
      exact (h (escapeCsv s ++ '"' :: rest) rfl).elim
  · have hnq : needsQuote s = false := by simpa using hq
    simp only [if_neg hq]
    have hhd : ∀ r : List Char, ¬(s ++ rest = '"' :: r) := by
      intro r hcontra
      cases s with
      | nil =>
        simp only [List.nil_append] at hcontra
        rcases hr with h | h <;> (rw [hcontra] at h; simp at h)
      | cons c cs =>
        simp only [List.cons_append, List.cons.injEq] at hcontra
        have : ¬c = '"' := by
          simp only [needsQuote, List.any_cons, Bool.or_eq_false_iff,
            decide_eq_false_iff_not] at hnq
          tauto
        exact this hcontra.1
    rw [csvParseField.eq_def]
    split
    next r heq => exact absurd heq (hhd r)
    next =>
      rw [csvParseUnquoted_id s rest hnq hr]

theorem csvParseRecordAux_encode (fs : List (List Char)) :
    ∀ (f : List Char) (fuel : Nat) (trailing : List Char), fs.length < fuel →
    csvParseRecordAux fuel (csvEncodeFields (f :: fs) ++ '\r' :: '\n' :: trailing) =
      some (f :: fs, trailing) := by
  induction fs with
  | nil =>
    intro f fuel trailing hf
    cases fuel with
    | zero => omega
    | succ n =>
      rw [show csvEncodeFields [f] = csvEncodeField f from rfl, csvParseRecordAux.eq_def]
      simp [csvParseField_encode f ('\r' :: '\n' :: trailing) (Or.inr rfl)]
  | cons g gs ih =>
    intro f fuel trailing hf
    cases fuel with
    | zero => omega
    | succ n =>
      rw [show csvEncodeFields (f :: g :: gs) =
        csvEncodeField f ++ ',' :: csvEncodeFields (g :: gs) from rfl, csvParseRecordAux.eq_def]
      simp only [List.append_assoc, List.cons_append]
      rw [csvParseField_encode f
        (',' :: (csvEncodeFields (g :: gs) ++ '\r' :: '\n' :: trailing)) (Or.inl rfl)]
      simp [ih g n trailing (by simp at hf; omega)]

theorem csvEncodeFields_length (fs : List (List Char)) :
    ∀ f : List Char, fs.length ≤ (csvEncodeFields (f :: fs)).length := by
  induction fs with
  | nil => intro f; simp
  | cons g gs ih =>
    intro f
    rw [show csvEncodeFields (f :: g :: gs) =
      csvEncodeField f ++ ',' :: csvEncodeFields (g :: gs) from rfl]
    simp only [List.length_append, List.length_cons]
    have := ih g
    omega

theorem csvParseRecordAux_quotedEmpty (n : Nat) (trailing : List Char) :
    csvParseRecordAux (n + 1) ('"' :: '"' :: '\r' :: '\n' :: trailing) =
      some ([[]], trailing) := by
  rw [csvParseRecordAux.eq_def]
  simp only [show csvParseField ('"' :: '"' :: '\r' :: '\n' :: trailing) =
    csvParseQuoted ('"' :: '\r' :: '\n' :: trailing) from rfl]
  rw [csvParseQuoted.eq_def]
  simp

theorem csvReadRecord_encode (fields : List (List Char)) (hne : fields ≠ [])
    (trailing : List Char) :
    csvReadRecord (csvEncodeRecord fields ++ trailing) = some (fields, trailing) := by
  by_cases hsp : fields = [[]]
  · subst hsp
    rw [csvEncodeRecord]
    simp only [if_pos rfl, List.cons_append, List.nil_append, List.append_assoc]
    exact csvParseRecordAux_quotedEmpty _ trailing
  · obtain ⟨f, fs, rfl⟩ : ∃ f fs, fields = f :: fs := by
      cases fields with
      | nil => exact absurd rfl hne
      | cons f fs => exact ⟨f, fs, rfl⟩
    rw [csvEncodeRecord, if_neg hsp]
    simp only [List.append_assoc, List.cons_append, List.nil_append]
    rw [csvReadRecord]
    apply csvParseRecordAux_encode
    have h1 := csvEncodeFields_length fs f
    simp only [List.length_append, List.length_cons]
    omega

theorem pyParseElems_dumps (xs : List (List Char)) :
    ∀ (x : List Char) (fuel : Nat) (rest : List Char), xs.length < fuel →
    pyParseElems fuel (encodeJsonString x ++ (jsonTail xs ++ rest)) = some (x :: xs, rest) := by
  induction xs with
  | nil =>
    intro x fuel rest hf
    cases fuel with
    | zero => omega
    | succ f =>
      rw [encodeJsonString, jsonTail]
      simp only [List.cons_append, List.append_assoc, List.singleton_append]
      rw [pyParseElems.eq_def]
      simp [jsonParseStringBody_escape, skipWs]
  | cons y ys ih =>
    intro x fuel rest hf
    cases fuel with
    | zero => omega
    | succ f =>
      have ih2 := ih y f rest (by simp at hf; omega)
      rw [encodeJsonString] at ih2
      simp only [List.cons_append, List.append_assoc, List.singleton_append,
        List.nil_append] at ih2
      rw [encodeJsonString, jsonTail]
      simp only [List.cons_append, List.append_assoc, List.singleton_append]
      rw [pyParseElems.eq_def]
      simp [jsonParseStringBody_escape, skipWs, ih2]

theorem pyEval_dumpsL (l : List (List Char)) :
    pyEvalStrList (String.mk (jsonDumpsL l)) = some (l.map String.mk) := by
  cases l with
  | nil => rfl
  | cons x xs =>
    have hlen : xs.length < (encodeJsonString x ++ jsonTail xs).length := by
      have := jsonTail_length xs
      simp only [List.length_append]
      omega
    have helems := pyParseElems_dumps xs x (encodeJsonString x ++ jsonTail xs).length [] hlen
    rw [List.append_nil] at helems
    rw [encodeJsonString] at helems
    simp only [List.cons_append, List.append_assoc, List.singleton_append,
      List.nil_append, List.length_cons, List.length_append] at helems
    rw [pyEvalStrList.eq_def]
    rw [show (String.mk (jsonDumpsL (x :: xs))).data =
      '[' :: ('"' :: (escapeJson x ++ '"' :: jsonTail xs)) from by
        show jsonDumpsL (x :: xs) = _
        rw [jsonDumpsL.eq_def]
        simp [encodeJsonString]]
    rw [show skipWs ('[' :: ('"' :: (escapeJson x ++ '"' :: jsonTail xs))) =
      '[' :: ('"' :: (escapeJson x ++ '"' :: jsonTail xs)) from by simp [skipWs]]
    simp [skipWs_quote, helems, skipWs]

theorem pyEval_dumps (l : List String) :
    pyEvalStrList (jsonDumpsStr l) = some l := by
  have h := pyEval_dumpsL (l.map String.data)
  rw [map_mk_map_data] at h
  exact h

/-- Claim C1: for every input list of N source records, the translation
stage produces exactly N translation records and the evaluation stage
produces exactly N evaluation records, each output sequence in the same
order as its input sequence, so that the record at position i of the
evaluation output corresponds to the source record at position i.  (The
per-record LLM behaviour is abstracted as a function; the batch facility
is the spec-modelled order-preserving `batchCall`.) -/
theorem claim_c1_batch_order (tm : SourceEntry → Translation)
    (em : Translation → TestQuestion) (entries : List SourceEntry) :
    (translationStage tm entries).length = entries.length ∧
    (evaluationStage em (translationStage tm entries)).length = entries.length ∧
    (∀ i : Nat, (translationStage tm entries)[i]? = (entries[i]?).map tm) ∧
    (∀ i : Nat, (evaluationStage em (translationStage tm entries))[i]? =
      (entries[i]?).map (fun e => em (tm e))) := by
  refine ⟨by simp [translationStage, batchCall],
    by simp [evaluationStage, translationStage, batchCall], fun i => ?_, fun i => ?_⟩
  · simp [translationStage, batchCall, List.getElem?_map]
  · simp only [evaluationStage, translationStage, batchCall, List.map_map,
      List.getElem?_map]
    rfl

theorem writeReportAux_ok_rows (ps : List (TestQuestion × SourceEntry)) :
    ∀ d r, writeReportAux ps = .ok (d, r) →
    r = ps.map (fun p => makeRow p.1 p.2) := by
  induction ps with
  | nil =>
    intro d r h
    rw [writeReportAux] at h
    cases h
    rfl
  | cons p rest ih =>
    intro d r h
    obtain ⟨ev, orig⟩ := p
    rw [show writeReportAux ((ev, orig) :: rest) =
      (match writeRecord ev orig with
       | .error e => .error e
       | .ok (d, r) => (writeReportAux rest).map (fun p => (d :: p.1, r :: p.2))) from rfl] at h
    cases hw : writeRecord ev orig with
    | error e => rw [hw] at h; cases h
    | ok dr =>
      obtain ⟨d0, r0⟩ := dr
      rw [hw] at h
      cases hrest : writeReportAux rest with
      | error e => rw [hrest] at h; cases h
      | ok p2 =>
        obtain ⟨d2, r2⟩ := p2
        rw [hrest] at h
        simp only [Except.map] at h
        cases h
        have hr0 : r0 = makeRow ev orig := by
          rw [writeRecord] at hw
          cases hcd : choicesDiag (makeRow ev orig).en_choices orig.en_choices with
          | error e => rw [hcd] at hw; cases hw
          | ok cd => rw [hcd] at hw; cases hw; rfl
        rw [hr0, ih d2 r2 hrest]
        rfl

/-- Claim C2: for every row the report writer writes to the output CSV,
the score field is an integer in the closed interval [0, 10], given that
the evaluation stage's structured outputs respect the schema bound the
notebook declares for `score` ("ranging from 0 to 10"); the writer
copies each score into its row unchanged. -/
theorem claim_c2_score_range (evals : List TestQuestion) (origs : List SourceEntry)
    (diags : List (List String)) (rows : List ReportRow)
    (hok : writeReport evals origs = .ok (diags, rows))
    (hs : ∀ ev ∈ evals, 0 ≤ ev.score ∧ ev.score ≤ 10) :
    ∀ r ∈ rows, 0 ≤ r.score ∧ r.score ≤ 10 := by
  intro r hr
  rw [writeReport] at hok
  rw [writeReportAux_ok_rows _ _ _ hok] at hr
  simp only [List.mem_map] at hr
  obtain ⟨⟨ev, orig⟩, hmem, rfl⟩ := hr
  exact hs ev (List.of_mem_zip hmem).1

/-- Claim C2 witness: a concrete run in which the single written row has
its score within bounds. -/
theorem claim_c2_score_range_witness :
    0 ≤ (makeRow wEvalA wOrig).score ∧ (makeRow wEvalA wOrig).score ≤ 10 :=
  claim_c2_score_range [wEvalA] [wOrig] [[]] [makeRow wEvalA wOrig] rfl
    (by decide) (makeRow wEvalA wOrig) (List.mem_cons_self _ _)

/-- Claim C3: the report writer's header row is exactly the seven field
names, and every data row it writes can be read back by a standard
Excel-dialect CSV reader as exactly those seven fields in order, even
when a field contains commas, quotes, or newlines (`r` ranges over all
rows, `trailing` over all following file content). -/
theorem claim_c3_csv_roundtrip (r : ReportRow) (trailing : List Char) :
    csvHeaderLine =
      "en_question,en_choices,trad_zh_question,trad_zh_choices,answer,score,differences\r\n" ∧
    csvReadRecordStr csvHeaderLine.data = some (fieldnames, []) ∧
    csvReadRecordStr (csvEncodeRecord ((rowFields r).map String.data) ++ trailing) =
      some (rowFields r, trailing) := by
  refine ⟨rfl, rfl, ?_⟩
  rw [csvReadRecordStr, csvReadRecord_encode _ (by simp [rowFields]) trailing]
  simp only [Option.map_some']
  rw [map_mk_map_data]

/-- Claim C4: for every record the report writer processes, a choices
field holding a list value is replaced by its JSON-array text encoding,
and a choices field already holding a text value is written unchanged
(no double encoding). -/
theorem claim_c4_list_guard (ev : TestQuestion) (orig : SourceEntry) :
    (∀ l, ev.en_choices = CellValue.ofList l →
      (makeRow ev orig).en_choices = jsonDumpsStr l) ∧
    (∀ s, ev.en_choices = CellValue.ofStr s →
      (makeRow ev orig).en_choices = s) ∧
    (∀ l, ev.trad_zh_choices = CellValue.ofList l →
      (makeRow ev orig).trad_zh_choices = jsonDumpsStr l) ∧
    (∀ s, ev.trad_zh_choices = CellValue.ofStr s →
      (makeRow ev orig).trad_zh_choices = s) := by
  refine ⟨?_, ?_, ?_, ?_⟩ <;> intro v hv <;> simp [makeRow, dumpCell, hv]

/-- Claim C4 witness: the list-valued choices of `wEvalA` are JSON-encoded
and the string-valued choices of `wEvalStr` pass through unchanged. -/
theorem claim_c4_list_guard_witness :
    (makeRow wEvalA wOrig).en_choices = jsonDumpsStr ["a"] ∧
    (makeRow wEvalStr wOrig).en_choices = "plain" :=
  ⟨(claim_c4_list_guard wEvalA wOrig).1 ["a"] rfl,
   (claim_c4_list_guard wEvalStr wOrig).2.1 "plain" rfl⟩

/-- Claim C5 counterexample: the choices strings of this record are the
Python literal `['a']`, which is not valid JSON (`jsonLoads` rejects it),
yet the comparison step does not fail: because the notebook re-parses
with `eval` rather than a JSON parser, the record is processed
successfully and no diagnostic is printed. -/
theorem claim_c5_counterexample :
    jsonLoads sqListStr = none ∧
    pyEvalStrList sqListStr = some ["a"] ∧
    writeRecord wEvalSq wOrigSq = .ok ([], makeRow wEvalSq wOrigSq) := by
  refine ⟨rfl, rfl, rfl⟩

/-- Claim C5 (amended): the comparison diagnostic re-parses the choices
strings with Python's `eval`, not a JSON parser, so a choices string
that is not valid JSON does not necessarily make the comparison fail
(see the counterexample); the comparison step fails only when `eval`
rejects a choices string (raises), and when the comparison step does
fail, the failure is unguarded: no exception is caught and the whole
report-writing run aborts rather than recovering.  The hypothesis is
exactly "the comparison step failed"; which strings make `eval` raise is
not decided here, only that any such failure propagates uncaught. -/
theorem claim_c5_eval_failure_unguarded (ev : TestQuestion) (orig : SourceEntry)
    (evals : List TestQuestion) (origs : List SourceEntry)
    (h : choicesDiag (makeRow ev orig).en_choices orig.en_choices = .error ()) :
    writeRecord ev orig = .error () ∧
    writeReport (ev :: evals) (orig :: origs) = .error () := by
  have hw : writeRecord ev orig = .error () := by
    rw [writeRecord, h]
  refine ⟨hw, ?_⟩
  rw [writeReport, List.zip_cons_cons]
  rw [show writeReportAux ((ev, orig) :: evals.zip origs) =
    (match writeRecord ev orig with
     | .error e => .error e
     | .ok (d, r) => (writeReportAux (evals.zip origs)).map
         (fun p => (d :: p.1, r :: p.2))) from rfl]
  rw [hw]

/-- Claim C5 (amended) witness: a record whose choices string is the bare
name `oops` — on which Python's `eval` genuinely raises (`NameError`) —
makes the comparison step fail, and the whole run aborts. -/
theorem claim_c5_eval_failure_unguarded_witness :
    writeRecord wEvalBad wOrig = .error () ∧
    writeReport [wEvalBad] [wOrig] = .error () :=
  claim_c5_eval_failure_unguarded wEvalBad wOrig [] [] rfl

/-- Claim C6: for a processed pair whose evaluation-stage choices came
back as a list `a` and whose source choices encode the list `b`, the
question diagnostic is printed exactly when the returned `en_question`
differs from the source's, and the choices diagnostic exactly when `a`
differs from `b`; each diagnostic shows the new and the old version, and
nothing is printed for a field that agrees. -/
theorem claim_c6_diagnostics (ev : TestQuestion) (orig : SourceEntry)
    (a b : List String)
    (hl : ev.en_choices = CellValue.ofList a)
    (ho : orig.en_choices = jsonDumpsStr b) :
    writeRecord ev orig = .ok (
      (if ev.en_question ≠ orig.en_question then
        ["Different question:", "New: " ++ ev.en_question,
         "Old: " ++ orig.en_question, ""]
       else []) ++
      (if a ≠ b then
        ["Different choices:", "New: " ++ jsonDumpsStr a,
         "Old: " ++ jsonDumpsStr b, ""]
       else []),
      makeRow ev orig) := by
  have hout : (makeRow ev orig).en_choices = jsonDumpsStr a := by
    simp [makeRow, dumpCell, hl]
  have hcd : choicesDiag (makeRow ev orig).en_choices orig.en_choices =
      .ok (if a ≠ b then
        ["Different choices:", "New: " ++ jsonDumpsStr a,
         "Old: " ++ jsonDumpsStr b, ""]
       else []) := by
    rw [choicesDiag, hout, ho, pyEval_dumps, pyEval_dumps]
  rw [writeRecord, hcd, questionDiag]

/-- Claim C6 witness: a pair with equal question text and equal choices
lists produces no diagnostic lines. -/
theorem claim_c6_diagnostics_witness :
    writeRecord wEvalA wOrig = .ok ([], makeRow wEvalA wOrig) := by
  have h := claim_c6_diagnostics wEvalA wOrig ["a"] ["a"] rfl rfl
  simpa using h

theorem processCompletions_props (events : List LlmCompletion) :
    ∀ s : BatchCallback, s.progress_bar.closed = false →
    (processCompletions s events).count = s.count + events.length ∧
    (processCompletions s events).progress_bar.n =
      s.progress_bar.n + events.length ∧
    (processCompletions s events).progress_bar.closed = false ∧
    (processCompletions s events).progress_bar.total = s.progress_bar.total := by
  induction events with
  | nil => intro s h; simp [processCompletions, h]
  | cons e es ih =>
    intro s h
    have hstep : onLlmEnd s e =
        { count := s.count + 1,
          progress_bar :=
            { n := s.progress_bar.n + 1, total := s.progress_bar.total,
              closed := false } } := by
      simp [onLlmEnd, tqdmUpdate, h]
    have hfold : processCompletions s (e :: es) = processCompletions (onLlmEnd s e) es := rfl
    obtain ⟨h1, h2, h3, h4⟩ := ih (onLlmEnd s e) (by rw [hstep])
    refine ⟨?_, ?_, ?_, ?_⟩
    · rw [hfold, h1, hstep]
      simp only [List.length_cons]
      omega
    · rw [hfold, h2, hstep]
      simp only [List.length_cons]
      omega
    · rw [hfold, h3]
    · rw [hfold, h4, hstep]

/-- Claim C8: the progress tracker, constructed with an expected total
and entered as a scoped resource, advances its counter and its display
by exactly one per completed unit of work regardless of completion order
(the handler ignores the unit's identity, so the count equals the number
of delivered completions and is invariant under permutation of the
events), advances on any completion whether the unit succeeded or failed
(the events carry arbitrary `success` flags), and releases the display
both on normal completion of the scope and on early exit from it. -/
theorem claim_c8_progress_tracker (total : Nat) (events : List LlmCompletion)
    (earlyExit : Option Nat) :
    (runScoped total events earlyExit).progress_bar.closed = true ∧
    (runScoped total events none).count = events.length ∧
    (runScoped total events none).progress_bar.n = events.length ∧
    (∀ k, (runScoped total events (some k)).count = min k events.length) ∧
    (∀ events2, events.Perm events2 →
      (runScoped total events2 none).count = (runScoped total events none).count) := by
  have hmain : ∀ evts : List LlmCompletion,
      (processCompletions (batchCallbackInit total) evts).count = evts.length ∧
      (processCompletions (batchCallbackInit total) evts).progress_bar.n = evts.length := by
    intro evts
    obtain ⟨h1, h2, _, _⟩ :=
      processCompletions_props evts (batchCallbackInit total) rfl
    exact ⟨by rw [h1]; simp [batchCallbackInit],
      by rw [h2]; simp [batchCallbackInit, tqdmInit]⟩
  refine ⟨?_, ?_, ?_, ?_, ?_⟩
  · simp [runScoped, tqdmClose]
  · have := (hmain events).1
    simpa [runScoped] using this
  · have := (hmain events).2
    simpa [runScoped, tqdmClose] using this
  · intro k
    have := (hmain (events.take k)).1
    simpa [runScoped, List.length_take] using this
  · intro events2 hperm
    have ha := (hmain events2).1
    have hb := (hmain events).1
    have : events2.length = events.length := hperm.length_eq.symm
    simp only [runScoped]
    rw [ha, hb, this]

/-- Claim C8 witness: a concrete scope over one successful and one failed
completion — the display is released, the counter reaches 2, an early
exit after one event leaves count 1, and a permuted delivery order gives
the same count. -/
theorem claim_c8_progress_tracker_witness :
    (runScoped 2 wEvents none).progress_bar.closed = true ∧
    (runScoped 2 wEvents none).count = 2 ∧
    (runScoped 2 wEvents (some 1)).count = min 1 2 ∧
    (runScoped 2 [{ run_id := 1, success := false }, { run_id := 0, success := true }] none).count =
      (runScoped 2 wEvents none).count := by
  have h := claim_c8_progress_tracker 2 wEvents none
  exact ⟨h.1, h.2.1, h.2.2.2.1 1, h.2.2.2.2 _ (by decide)⟩

/-- Claim C9: the summary plot collects the score field of all
evaluation records and draws a histogram with eleven integer-width bins
spanning scores 0 through 10, with axes labelled Scores and Count; for
the score multiset 0,5,10,10,7 the bin counts are one each at 0, 5 and 7,
two at 10, and zero in every other bin. -/
theorem claim_c9_histogram (evals : List TestQuestion) :
    (summaryPlot evals).xlabel = "Scores" ∧
    (summaryPlot evals).ylabel = "Count" ∧
    (summaryPlot evals).counts.length = 11 ∧
    (summaryPlot evals).counts = histCounts (evals.map (fun e => e.score)) ∧
    histCounts [0, 5, 10, 10, 7] = [1, 0, 0, 0, 0, 1, 0, 1, 0, 0, 2] := by
  refine ⟨rfl, rfl, ?_, rfl, by decide⟩
  show (histCounts (collectScores evals)).length = 11
  rw [histCounts, List.length_map, List.length_range]

/-- Claim C10: when the evaluation-output sequence and the source-record
sequence handed to the report writer have different lengths, the writer
raises no error — provided each processed pair itself succeeds — and
silently writes exactly `min` of the two lengths rows, pairing records
positionally and dropping the trailing records of the longer sequence. -/
theorem claim_c10_zip_truncation (evals : List TestQuestion) (origs : List SourceEntry)
    (h : ∀ p ∈ evals.zip origs, exceptOk (writeRecord p.1 p.2) = true) :
    writeReport evals origs =
      .ok ((evals.zip origs).map (fun p => diagOf p.1 p.2),
           (evals.zip origs).map (fun p => makeRow p.1 p.2)) ∧
    ((evals.zip origs).map (fun p => makeRow p.1 p.2)).length =
      min evals.length origs.length := by
  constructor
  · rw [writeReport]
    have hgen : ∀ ps : List (TestQuestion × SourceEntry),
        (∀ p ∈ ps, exceptOk (writeRecord p.1 p.2) = true) →
        writeReportAux ps =
          .ok (ps.map (fun p => diagOf p.1 p.2), ps.map (fun p => makeRow p.1 p.2)) := by
      intro ps
      induction ps with
      | nil => intro _; rfl
      | cons p rest ih =>
        intro hall
        obtain ⟨ev, orig⟩ := p
        have h1 := hall (ev, orig) (List.mem_cons_self _ _)
        rw [show writeReportAux ((ev, orig) :: rest) =
          (match writeRecord ev orig with
           | .error e => .error e
           | .ok (d, r) => (writeReportAux rest).map
               (fun p => (d :: p.1, r :: p.2))) from rfl]
        cases hcd : choicesDiag (makeRow ev orig).en_choices orig.en_choices with
        | error e =>
          exfalso
          rw [writeRecord, hcd] at h1
          simp [exceptOk] at h1
        | ok cd =>
          rw [show writeRecord ev orig =
            .ok (questionDiag ev orig ++ cd, makeRow ev orig) from by
              rw [writeRecord, hcd]]
          rw [ih (fun q hq => hall q (List.mem_cons_of_mem _ hq))]
          simp only [diagOf, hcd, Except.map, List.map_cons]
    exact hgen _ h
  · simp [List.length_zip]

/-- Claim C10 witness: two evaluation records against one source entry
produce exactly one row, with no error. -/
theorem claim_c10_zip_truncation_witness :
    writeReport [wEvalA, wEvalA] [wOrig] =
      .ok ([diagOf wEvalA wOrig], [makeRow wEvalA wOrig]) ∧
    [makeRow wEvalA wOrig].length = min 2 1 :=
  claim_c10_zip_truncation [wEvalA, wEvalA] [wOrig] (by decide)
